import Mathlib

/-!
Verification of the `greenland` repository: an interactive viewer
(`src/app.js`) over a precomputed list of contiguous US-state combinations
whose areas match Greenland's, plus an offline combination enumerator
described in the spec (its script `comparison.py` is not part of the
reviewed sources).

The viewer definitions below are shallow embeddings of the functions in
`src/app.js`; the enumerator is modelled from the spec (section 4.1).
-/

namespace Greenland

/-- A combination record as stored in `data/combinations.json`:
member state names plus the precomputed total area. -/
structure Combo where
  states : List String
  total_km2 : Int
  deriving DecidableEq, Repr

/-- The filter predicate used in `renderCombinations` (src/app.js:175-179):
`if (selectedStates.length === 0) return true;
 return selectedStates.every(state => combo.states.includes(state));` -/
def comboPasses (selectedStates : List String) (combo : Combo) : Bool :=
  if selectedStates.length == 0 then true
  else selectedStates.all (fun state => combo.states.contains state)

/-- Case-insensitive substring test over character lists, embedding
JavaScript's `name.toLowerCase().includes(query.toLowerCase())`
(src/app.js:375). -/
def substrChars (pat s : List Char) : Bool :=
  (List.range (s.length + 1)).any (fun i => pat.isPrefixOf (List.drop i s))

/-- `s.toLowerCase().includes(query.toLowerCase())` from `showDropdown`;
lower-casing is the character-wise map JavaScript performs on ASCII names. -/
def includesCI (s query : String) : Bool :=
  substrChars (query.data.map Char.toLower) (s.data.map Char.toLower)

/-- The lower-48 test used in `renderStates` (src/app.js:107-111): keep a
feature name unless it is Alaska, Hawaii, Puerto Rico or DC. -/
def isLower48 (name : String) : Bool :=
  name != "Alaska" && name != "Hawaii" &&
  name != "Puerto Rico" && name != "District of Columbia"

/-- Lexicographic code-unit comparison on character lists: the default
comparison `Array.prototype.sort()` applies to strings. -/
def lexLe : List Char → List Char → Bool
  | [], _ => true
  | _ :: _, [] => false
  | a :: as, b :: bs => if a = b then lexLe as bs else decide (a < b)

/-- JavaScript's default string ordering for `.sort()`. -/
def jsStrLe (a b : String) : Bool := lexLe a.data b.data

/-- One insertion step of a stable sort. -/
def insertSorted (le : String → String → Bool) (a : String) :
    List String → List String
  | [] => [a]
  | b :: bs => if le a b then a :: b :: bs else b :: insertSorted le a bs

/-- A stable sort by `le`, modelling JavaScript's `Array.prototype.sort()`
(stable, default string comparator). -/
def sortJS (le : String → String → Bool) (l : List String) : List String :=
  l.foldr (insertSorted le) []

/-- `allStateNames` as populated in `renderStates` (src/app.js:113-114):
the lower-48 feature names, sorted. -/
def stateNamesFrom (featureNames : List String) : List String :=
  sortJS jsStrLe (featureNames.filter isLower48)

/-- The viewer's global mutable state (src/app.js:1-9) together with the
DOM pieces the claims talk about (rendered list, list-header count,
typeahead dropdown).  Map and remaining DOM effects are outside the model. -/
structure ViewerState where
  combinationsData : List Combo
  selectedComboIndex : Option Nat
  selectedStates : List String
  allStateNames : List String
  highlightedIndex : Int
  searchValue : String
  dropdownVisible : Bool
  dropdownItems : List String
  renderedCombos : List Combo
  headerCount : Nat
  deriving Repr

/-- `renderCombinations` (src/app.js:171-196): filter the combination list
by `comboPasses`, render at most 500 rows, put the full filtered count in
the list header.  `filtered.slice(0, Math.min(filtered.length, 500))` is
`take (min filtered.length 500)`. -/
def renderCombinations (st : ViewerState) : ViewerState :=
  let filtered := st.combinationsData.filter (comboPasses st.selectedStates)
  let toRender := filtered.take (min filtered.length 500)
  { st with renderedCombos := toRender, headerCount := filtered.length }

/-- `hideDropdown` (src/app.js:400-403): hide the dropdown and reset the
highlight index to -1. -/
def hideDropdown (st : ViewerState) : ViewerState :=
  { st with dropdownVisible := false, highlightedIndex := -1 }

/-- `showDropdown` (src/app.js:372-398): match lower-case substring against
`allStateNames`, drop names already in the filter; hide when query is empty
or nothing matches, else show the first 8 matches. -/
def showDropdown (st : ViewerState) (query : String) : ViewerState :=
  let matchList := st.allStateNames.filter (fun name =>
    includesCI name query && !st.selectedStates.contains name)
  if matchList.isEmpty || query == "" then hideDropdown st
  else { st with dropdownItems := matchList.take 8, dropdownVisible := true }

/-- `addStateFilter` (src/app.js:298-307): push the state if absent and
re-render; always clear the search box and hide the dropdown. -/
def addStateFilter (st : ViewerState) (stateName : String) : ViewerState :=
  let st1 :=
    if st.selectedStates.contains stateName then st
    else renderCombinations
      { st with selectedStates := st.selectedStates ++ [stateName] }
  hideDropdown { st1 with searchValue := "" }

/-- `removeStateFilter` (src/app.js:310-315):
`selectedStates = selectedStates.filter(s => s !== stateName)`, re-render. -/
def removeStateFilter (st : ViewerState) (stateName : String) : ViewerState :=
  renderCombinations
    { st with selectedStates := st.selectedStates.filter (fun s => s != stateName) }

/-- The `input` listener on the search box (src/app.js:418-422): reset the
highlight, then `showDropdown(query)`. -/
def typeaheadInput (st : ViewerState) (query : String) : ViewerState :=
  showDropdown { st with highlightedIndex := -1 } query

/-- `selectCombination` (src/app.js:218-272): the only global state it
writes is `selectedComboIndex`; everything else is map/DOM styling. -/
def selectCombination (st : ViewerState) (idx : Nat) : ViewerState :=
  { st with selectedComboIndex := some idx }

/-- `clearSelection` (src/app.js:282-295): clears `selectedComboIndex`;
the rest is map/DOM styling. -/
def clearSelection (st : ViewerState) : ViewerState :=
  { st with selectedComboIndex := none }

/-- The `clear-search` button handler (src/app.js:459-465): empty the
search box and the filter list, re-render. -/
def clearFilters (st : ViewerState) : ViewerState :=
  renderCombinations { st with searchValue := "", selectedStates := [] }

/-- The user intents the spec lists for the viewer. -/
inductive ViewerOp where
  | renderCombos
  | addFilter (name : String)
  | removeFilter (name : String)
  | typeahead (query : String)
  | selectCombo (idx : Nat)
  | clearSel
  | clearAllFilters
  deriving Repr

/-- Dispatch one user intent on the viewer state. -/
def applyViewerOp (st : ViewerState) : ViewerOp → ViewerState
  | .renderCombos => renderCombinations st
  | .addFilter name => addStateFilter st name
  | .removeFilter name => removeStateFilter st name
  | .typeahead query => typeaheadInput st query
  | .selectCombo idx => selectCombination st idx
  | .clearSel => clearSelection st
  | .clearAllFilters => clearFilters st

/-- The three Leaflet style objects of src/app.js:29-50, by name. -/
inductive StyleName where
  | defaultStyle
  | hoverStyle
  | selectedStyle
  deriving DecidableEq, Repr

/-- `layer.setStyle(v)` on the layer of one state: the style map changes
only at that state's name. -/
def setStyle (styles : String → StyleName) (name : String) (v : StyleName) :
    String → StyleName :=
  fun s => if s == name then v else styles s

/-- `handleStateHover` (src/app.js:132-146): when a combination is selected
and the hovered state belongs to it, return early (no style change);
otherwise set the hovered state's style to `hoverStyle`.  (When
`selectedComboIndex` is out of bounds the JS would throw; that branch is
unreachable under the in-bounds hypotheses used below.) -/
def handleStateHover (combos : List Combo) (selIdx : Option Nat)
    (styles : String → StyleName) (stateName : String) : String → StyleName :=
  match selIdx with
  | some idx =>
    match combos.get? idx with
    | some combo =>
      if combo.states.contains stateName then styles
      else setStyle styles stateName .hoverStyle
    | none => styles
  | none => setStyle styles stateName .hoverStyle

/-- `handleStateOut` (src/app.js:149-162): same guard as hover, otherwise
reset the state's style to `defaultStyle`. -/
def handleStateOut (combos : List Combo) (selIdx : Option Nat)
    (styles : String → StyleName) (stateName : String) : String → StyleName :=
  match selIdx with
  | some idx =>
    match combos.get? idx with
    | some combo =>
      if combo.states.contains stateName then styles
      else setStyle styles stateName .defaultStyle
    | none => styles
  | none => setStyle styles stateName .defaultStyle

/-- A concrete viewer state used to exercise the theorems. -/
def sampleState : ViewerState :=
  { combinationsData := [⟨["Iowa", "Ohio"], 261844⟩],
    selectedComboIndex := none, selectedStates := ["Ohio"],
    allStateNames := ["Iowa", "Ohio"], highlightedIndex := -1,
    searchValue := "", dropdownVisible := false, dropdownItems := [],
    renderedCombos := [], headerCount := 0 }

/-- Modelled from the spec: the Combination Enumerator's input
(`comparison.py` is absent from the reviewed sources) — an adjacency graph
over state names, per-state areas, the target area and an absolute
tolerance (spec sections 3, 4.1). -/
structure EnumInput where
  nodes : List String
  edges : List (String × String)
  areas : List (String × Int)
  target : Int
  tolerance : Nat
  deriving Repr

/-- Modelled from the spec: border adjacency as a symmetric relation read
off an undirected edge list (spec section 3, Adjacency Graph). -/
def adjacentB (edges : List (String × String)) (a b : String) : Bool :=
  edges.contains (a, b) || edges.contains (b, a)

/-- Modelled from the spec: one expansion step of the connected-subgraph
search — add every state of `s` adjacent to the current set (spec
section 4.1, grow the current connected set). -/
def growStep (edges : List (String × String)) (s cur : List String) :
    List String :=
  cur ++ s.filter (fun v =>
    !cur.contains v && cur.any (fun u => adjacentB edges u v))

/-- Modelled from the spec: iterate the expansion a given number of
times. -/
def growFrom (edges : List (String × String)) (s : List String) :
    Nat → List String → List String
  | 0, cur => cur
  | n + 1, cur => growFrom edges s n (growStep edges s cur)

/-- Modelled from the spec: a non-empty state set is connected when every
member is reached by growing from its first member within the induced
subgraph (spec section 3, Combination invariant). -/
def connectedB (edges : List (String × String)) : List String → Bool
  | [] => false
  | a :: rest =>
    (a :: rest).all fun v =>
      (growFrom edges (a :: rest) (a :: rest).length [a]).contains v

/-- Modelled from the spec: look up a state's area (missing data would be a
configuration error; absent entries read as 0 here). -/
def areaOf (areas : List (String × Int)) (v : String) : Int :=
  ((areas.find? (fun p => p.1 == v)).map Prod.snd).getD 0

/-- Modelled from the spec: the exact integer sum of the member areas (spec
section 4.1, numeric semantics). -/
def areaSum (areas : List (String × Int)) (s : List String) : Int :=
  (s.map (areaOf areas)).sum

/-- Modelled from the spec: the Combination Enumerator — every non-empty
connected subset of the nodes whose area sum is within the tolerance of the
target, each subset listed once (spec sections 4.1 and 8). -/
def enumerate (inp : EnumInput) : List (List String) :=
  inp.nodes.sublists.filter fun s =>
    !s.isEmpty && connectedB inp.edges s &&
      decide ((areaSum inp.areas s - inp.target).natAbs ≤ inp.tolerance)

/-- Reachability inside the subgraph induced on `s`: the transitive closure
of adjacency restricted to members of `s`. -/
inductive ReachIn (edges : List (String × String)) (s : List String) :
    String → String → Prop where
  | refl (a : String) (ha : a ∈ s) : ReachIn edges s a a
  | tail (a b c : String) (hab : ReachIn edges s a b) (hc : c ∈ s)
      (hadj : adjacentB edges b c = true) : ReachIn edges s a c

/-- The spec's worked example (section 8): path graph A-B, B-C, C-D with
areas A:10, B:20, C:15, D:5, target 35, tolerance 0. -/
def exampleInput : EnumInput :=
  { nodes := ["A", "B", "C", "D"],
    edges := [("A", "B"), ("B", "C"), ("C", "D")],
    areas := [("A", 10), ("B", 20), ("C", 15), ("D", 5)],
    target := 35, tolerance := 0 }

/-- How a `fetch` of a data file can turn out for `response.json()`. -/
inductive FetchOutcome where
  | ok
  | missing
  | malformed
  deriving DecidableEq, Repr

/-- `await response.json()` (src/app.js:89, 95): succeeds on valid JSON;
throws a SyntaxError on a missing file (the server's non-JSON error body)
or malformed contents.  There is no try/catch anywhere in the loaders. -/
def responseJson : FetchOutcome → Except String Unit
  | .ok => .ok ()
  | .missing => .error "SyntaxError: unexpected token"
  | .malformed => .error "SyntaxError: unexpected token"

/-- `init` (src/app.js:53-67): awaits both loads; if either rejects, the
rejection escapes `init` unhandled and none of `renderStates`,
`renderCombinations`, `setupEventListeners` run.  On success the viewer
state is set up and the list rendered. -/
def init (geo combos : FetchOutcome) (featureNames : List String)
    (_greenland_km2 : Int) (combinations : List Combo) :
    Except String ViewerState :=
  match responseJson geo, responseJson combos with
  | .error e, _ => .error e
  | .ok _, .error e => .error e
  | .ok _, .ok _ =>
    .ok (renderCombinations
      { combinationsData := combinations, selectedComboIndex := none,
        selectedStates := [], allStateNames := stateNamesFrom featureNames,
        highlightedIndex := -1, searchValue := "", dropdownVisible := false,
        dropdownItems := [], renderedCombos := [], headerCount := 0 })

end Greenland

namespace Greenland

/-- C1: a combination passes the multi-select filter iff every state in the
filter list appears among the combination's member states; in particular an
empty filter list passes every combination. -/
theorem comboPasses_iff_all_mem :
    (∀ (sel : List String) (c : Combo),
      comboPasses sel c = true ↔ ∀ st ∈ sel, st ∈ c.states) ∧
    (∀ c : Combo, comboPasses [] c = true) := by
  constructor
  · intro sel c
    cases sel with
    | nil => simp [comboPasses]
    | cons a tl =>
      simp [comboPasses, List.all_eq_true]
  · intro c
    simp [comboPasses]

theorem comboPasses_iff_all_mem_witness :
    comboPasses ["Ohio"] ⟨["Iowa", "Ohio"], 261844⟩ = true :=
  (comboPasses_iff_all_mem.1 ["Ohio"] ⟨["Iowa", "Ohio"], 261844⟩).mpr
    (by decide)

/-- C4: every viewer operation (render, add/remove filter state, typeahead,
select combination, clear selection, clear filters) leaves the loaded
combination list, and hence every combination's member list and total area,
unchanged. -/
theorem applyViewerOp_preserves_combinations :
    ∀ (st : ViewerState) (op : ViewerOp),
      (applyViewerOp st op).combinationsData = st.combinationsData ∧
      (∀ i : Nat,
        ((applyViewerOp st op).combinationsData.get? i).map Combo.states
          = (st.combinationsData.get? i).map Combo.states) ∧
      (∀ i : Nat,
        ((applyViewerOp st op).combinationsData.get? i).map Combo.total_km2
          = (st.combinationsData.get? i).map Combo.total_km2) := by
  intro st op
  have h : (applyViewerOp st op).combinationsData = st.combinationsData := by
    cases op with
    | renderCombos => rfl
    | addFilter name =>
      simp only [applyViewerOp, addStateFilter, hideDropdown]
      split <;> rfl
    | removeFilter name => rfl
    | typeahead query =>
      simp only [applyViewerOp, typeaheadInput, showDropdown, hideDropdown]
      split <;> rfl
    | selectCombo idx => rfl
    | clearSel => rfl
    | clearAllFilters => rfl
  exact ⟨h, fun i => by rw [h], fun i => by rw [h]⟩

/-- C5: `renderCombinations` renders at most 500 rows — always a prefix of
the filtered list — while the header reports the number of combinations
passing the filter, which can exceed 500. -/
theorem renderCombinations_caps_rows_header_full_count :
    (∀ st : ViewerState,
      (renderCombinations st).renderedCombos.length ≤ 500 ∧
      (renderCombinations st).renderedCombos
        <+: st.combinationsData.filter (comboPasses st.selectedStates) ∧
      (renderCombinations st).headerCount
        = st.combinationsData.countP (comboPasses st.selectedStates)) ∧
    (∃ st : ViewerState,
      500 < (renderCombinations st).headerCount ∧
      (renderCombinations st).renderedCombos.length = 500) := by
  constructor
  · intro st
    refine ⟨?_, ?_, ?_⟩
    · simp only [renderCombinations, List.length_take]
      omega
    · exact List.take_prefix _ _
    · simp [renderCombinations, List.countP_eq_length_filter]
  · have hall : (List.replicate 501 (⟨[], 0⟩ : Combo)).filter (comboPasses [])
        = List.replicate 501 ⟨[], 0⟩ :=
      List.filter_eq_self.mpr (fun a _ => by simp [comboPasses])
    refine ⟨{ combinationsData := List.replicate 501 ⟨[], 0⟩,
              selectedComboIndex := none, selectedStates := [],
              allStateNames := [], highlightedIndex := -1, searchValue := "",
              dropdownVisible := false, dropdownItems := [],
              renderedCombos := [], headerCount := 0 }, ?_, ?_⟩ <;>
      simp only [renderCombinations, hall, List.length_take,
        List.length_replicate] <;> omega

theorem applyViewerOp_preserves_combinations_witness :
    (applyViewerOp sampleState ViewerOp.clearSel).combinationsData
      = sampleState.combinationsData :=
  (applyViewerOp_preserves_combinations sampleState ViewerOp.clearSel).1

theorem renderCombinations_caps_rows_witness :
    (renderCombinations sampleState).renderedCombos.length ≤ 500 :=
  (renderCombinations_caps_rows_header_full_count.1 sampleState).1

theorem mem_insertSorted {le : String → String → Bool} {a n : String}
    {l : List String} : n ∈ insertSorted le a l ↔ n = a ∨ n ∈ l := by
  induction l with
  | nil => simp [insertSorted]
  | cons b bs ih =>
    simp only [insertSorted]
    split
    · simp
    · simp [ih]
      tauto

theorem mem_sortJS {le : String → String → Bool} {n : String}
    {l : List String} : n ∈ sortJS le l ↔ n ∈ l := by
  induction l with
  | nil => simp [sortJS]
  | cons b bs ih =>
    simp only [sortJS, List.foldr_cons] at *
    rw [mem_insertSorted, ih]
    simp

/-- The value `addStateFilter` leaves in `selectedStates`. -/
theorem addStateFilter_selectedStates (st : ViewerState) (name : String) :
    (addStateFilter st name).selectedStates =
      if st.selectedStates.contains name then st.selectedStates
      else st.selectedStates ++ [name] := by
  by_cases hc : name ∈ st.selectedStates <;>
    simp [addStateFilter, hideDropdown, renderCombinations, hc]

/-- C8: the filter list never acquires duplicates — adding an
already-present state is a no-op, removing a state removes every
occurrence, and any sequence of viewer operations keeps the filter list
duplicate-free. -/
theorem selectedStates_distinct :
    (∀ (st : ViewerState) (name : String),
      st.selectedStates.contains name = true →
      (addStateFilter st name).selectedStates = st.selectedStates) ∧
    (∀ (st : ViewerState) (name : String),
      name ∉ (removeStateFilter st name).selectedStates) ∧
    (∀ (ops : List ViewerOp) (st : ViewerState),
      st.selectedStates.Nodup →
      (ops.foldl applyViewerOp st).selectedStates.Nodup) := by
  have hstep : ∀ (st : ViewerState) (op : ViewerOp),
      st.selectedStates.Nodup → (applyViewerOp st op).selectedStates.Nodup := by
    intro st op h
    cases op with
    | renderCombos => exact h
    | addFilter name =>
      show (addStateFilter st name).selectedStates.Nodup
      rw [addStateFilter_selectedStates]
      by_cases hc : name ∈ st.selectedStates
      · simp [hc, h]
      · have hcp : ¬(st.selectedStates.contains name = true) := by
          simpa using hc
        rw [if_neg hcp, List.nodup_append]
        exact ⟨h, List.nodup_singleton _, by rw [List.disjoint_singleton]; exact hc⟩
    | removeFilter name => exact List.Nodup.filter _ h
    | typeahead query =>
      have hq : (applyViewerOp st (.typeahead query)).selectedStates
          = st.selectedStates := by
        simp only [applyViewerOp, typeaheadInput, showDropdown, hideDropdown]
        split <;> rfl
      rw [hq]; exact h
    | selectCombo idx => exact h
    | clearSel => exact h
    | clearAllFilters => exact List.nodup_nil
  refine ⟨?_, ?_, ?_⟩
  · intro st name h
    have hm : name ∈ st.selectedStates := by simpa using h
    rw [addStateFilter_selectedStates]
    simp [hm]
  · intro st name
    simp [removeStateFilter, renderCombinations, List.mem_filter]
  · intro ops
    induction ops with
    | nil => intro st h; exact h
    | cons op tl ih => intro st h; exact ih _ (hstep st op h)

theorem selectedStates_distinct_witness :
    sampleState.selectedStates.contains "Ohio" = true ∧
    (addStateFilter sampleState "Ohio").selectedStates = ["Ohio"] ∧
    ([ViewerOp.addFilter "Iowa", ViewerOp.removeFilter "Ohio"].foldl
        applyViewerOp sampleState).selectedStates.Nodup :=
  ⟨by decide, selectedStates_distinct.1 sampleState "Ohio" (by decide),
    selectedStates_distinct.2.2 _ sampleState (by decide)⟩

/-- C9: when the dropdown is shown it holds at most 8 entries, each a
lower-48 state name containing the query case-insensitively and not already
in the filter list; an empty query, or a query every matching name of which
is already filtered, hides the dropdown and resets the highlight to -1. -/
theorem showDropdown_spec (st : ViewerState) (featureNames : List String)
    (query : String)
    (hall : st.allStateNames = stateNamesFrom featureNames) :
    ((showDropdown st query).dropdownVisible = true →
      (showDropdown st query).dropdownItems.length ≤ 8 ∧
      ∀ n ∈ (showDropdown st query).dropdownItems,
        n ∈ featureNames ∧ isLower48 n = true ∧
        includesCI n query = true ∧ n ∉ st.selectedStates) ∧
    (query = "" →
      (showDropdown st query).dropdownVisible = false ∧
      (showDropdown st query).highlightedIndex = -1) ∧
    ((∀ n ∈ st.allStateNames, includesCI n query = true →
        n ∈ st.selectedStates) →
      (showDropdown st query).dropdownVisible = false ∧
      (showDropdown st query).highlightedIndex = -1) := by
  by_cases hc : ((st.allStateNames.filter (fun name =>
      includesCI name query && !st.selectedStates.contains name)).isEmpty
        || query == "") = true
  · have h1 : (showDropdown st query).dropdownVisible = false := by
      simp only [showDropdown]
      rw [if_pos hc]
      rfl
    have h2 : (showDropdown st query).highlightedIndex = -1 := by
      simp only [showDropdown]
      rw [if_pos hc]
      rfl
    refine ⟨fun hx => ?_, fun _ => ⟨h1, h2⟩, fun _ => ⟨h1, h2⟩⟩
    rw [h1] at hx
    exact Bool.noConfusion hx
  · have hitems : (showDropdown st query).dropdownItems =
        (st.allStateNames.filter (fun name =>
          includesCI name query && !st.selectedStates.contains name)).take 8 := by
      simp only [showDropdown]
      rw [if_neg hc]
    refine ⟨fun _ => ⟨?_, ?_⟩, fun hq => ?_, fun hforall => ?_⟩
    · rw [hitems]
      simp only [List.length_take]
      omega
    · intro n hn
      rw [hitems] at hn
      have hml : n ∈ st.allStateNames.filter (fun name =>
          includesCI name query && !st.selectedStates.contains name) :=
        List.take_subset _ _ hn
      rw [List.mem_filter] at hml
      obtain ⟨hmemAll, hp⟩ := hml
      rw [Bool.and_eq_true, Bool.not_eq_true'] at hp
      obtain ⟨hinc, hcon⟩ := hp
      have hnotSel : n ∉ st.selectedStates := by
        intro hm
        have ht : st.selectedStates.contains n = true := by
          simp [List.contains, List.elem_iff]
          exact hm
        rw [ht] at hcon
        cases hcon
      rw [hall] at hmemAll
      unfold stateNamesFrom at hmemAll
      rw [mem_sortJS, List.mem_filter] at hmemAll
      exact ⟨hmemAll.1, hmemAll.2, hinc, hnotSel⟩
    · refine absurd ?_ hc
      rw [hq]
      simp
    · refine absurd ?_ hc
      have hml : st.allStateNames.filter (fun name =>
          includesCI name query && !st.selectedStates.contains name) = [] := by
        rw [List.filter_eq_nil_iff]
        intro a ha
        rw [Bool.and_eq_true, Bool.not_eq_true']
        intro hp
        obtain ⟨hinc, hcon⟩ := hp
        have hm := hforall a ha hinc
        have ht : st.selectedStates.contains a = true := by
          simp [List.contains, List.elem_iff]
          exact hm
        rw [ht] at hcon
        cases hcon
      rw [hml]
      rfl

theorem showDropdown_spec_witness :
    sampleState.allStateNames = stateNamesFrom ["Alaska", "Iowa", "Ohio"] ∧
    (showDropdown sampleState "io").dropdownVisible = true ∧
    (showDropdown sampleState "io").dropdownItems.length ≤ 8 ∧
    (showDropdown sampleState "").dropdownVisible = false := by
  have hall : sampleState.allStateNames
      = stateNamesFrom ["Alaska", "Iowa", "Ohio"] := by decide
  exact ⟨hall, by decide,
    ((showDropdown_spec sampleState _ "io" hall).1 (by decide)).1,
    ((showDropdown_spec sampleState _ "" hall).2.1 rfl).1⟩

/-- C10: while a combination is selected, hover and mouse-out events leave
the style of every state belonging to that combination unchanged, whatever
state the event fires on. -/
theorem hover_preserves_selected_combo_styles
    (combos : List Combo) (idx : Nat) (combo : Combo)
    (styles : String → StyleName) (stateName s : String)
    (hidx : combos.get? idx = some combo) (hs : s ∈ combo.states) :
    handleStateHover combos (some idx) styles stateName s = styles s ∧
    handleStateOut combos (some idx) styles stateName s = styles s := by
  have hne : stateName ∉ combo.states → s ≠ stateName := by
    intro hcon he
    exact hcon (he ▸ hs)
  constructor <;>
    · simp only [handleStateHover, handleStateOut, hidx]
      by_cases hcon : stateName ∈ combo.states
      · simp [hcon]
      · simp [hcon, setStyle, hne hcon]

theorem ReachIn.mem_right {edges : List (String × String)} {s : List String}
    {a b : String} (h : ReachIn edges s a b) : b ∈ s := by
  induction h with
  | refl ha => exact ha
  | tail b c hab hc hadj ih => exact hc

theorem ReachIn.trans {edges : List (String × String)} {s : List String}
    {a b c : String} (h1 : ReachIn edges s a b) (h2 : ReachIn edges s b c) :
    ReachIn edges s a c := by
  induction h2 with
  | refl hb => exact h1
  | tail y z hby hz hadj ih => exact ReachIn.tail a y z ih hz hadj

theorem adjacentB_symm (edges : List (String × String)) (a b : String) :
    adjacentB edges a b = adjacentB edges b a := by
  simp [adjacentB, Bool.or_comm]

theorem ReachIn.symm {edges : List (String × String)} {s : List String}
    {a b : String} (h : ReachIn edges s a b) : ReachIn edges s b a := by
  induction h with
  | refl ha => exact ReachIn.refl a ha
  | tail y z hay hz hadj ih =>
    have hzy : ReachIn edges s z y :=
      ReachIn.tail z z y (ReachIn.refl z hz) hay.mem_right
        (by rw [adjacentB_symm]; exact hadj)
    exact hzy.trans ih

theorem growStep_sound {edges : List (String × String)} {s cur : List String}
    {a : String} (h : ∀ v ∈ cur, ReachIn edges s a v) :
    ∀ v ∈ growStep edges s cur, ReachIn edges s a v := by
  intro v hv
  rw [growStep, List.mem_append] at hv
  cases hv with
  | inl h1 => exact h v h1
  | inr h2 =>
    rw [List.mem_filter] at h2
    obtain ⟨hvs, hp⟩ := h2
    rw [Bool.and_eq_true] at hp
    obtain ⟨hnc, hany⟩ := hp
    rw [List.any_eq_true] at hany
    obtain ⟨u, hu, hadj⟩ := hany
    exact ReachIn.tail a u v (h u hu) hvs hadj

theorem growFrom_sound {edges : List (String × String)} {s : List String}
    {a : String} : ∀ (n : Nat) (cur : List String),
    (∀ v ∈ cur, ReachIn edges s a v) →
    ∀ v ∈ growFrom edges s n cur, ReachIn edges s a v := by
  intro n
  induction n with
  | zero => exact fun cur h v hv => h v hv
  | succ m ih => exact fun cur h v hv => ih _ (growStep_sound h) v hv

theorem connectedB_sound {edges : List (String × String)} {s : List String}
    (h : connectedB edges s = true) :
    ∀ a ∈ s, ∀ b ∈ s, ReachIn edges s a b := by
  cases s with
  | nil => exact fun a ha => absurd ha (List.not_mem_nil a)
  | cons x rest =>
    have hroot : ∀ v ∈ x :: rest, ReachIn edges (x :: rest) x v := by
      intro v hv
      rw [connectedB, List.all_eq_true] at h
      have hv' : v ∈ growFrom edges (x :: rest) (x :: rest).length [x] := by
        simpa using h v hv
      refine growFrom_sound _ _ ?_ v hv'
      intro w hw
      rw [List.mem_singleton] at hw
      subst hw
      exact ReachIn.refl w (List.mem_cons_self w rest)
    exact fun a ha b hb => (hroot a ha).symm.trans (hroot b hb)

/-- C2: every combination the enumerator retains is non-empty and its
member states are pairwise reachable inside the induced subgraph — the
induced subgraph is a single connected component. -/
theorem enumerate_connected (inp : EnumInput) (s : List String)
    (hs : s ∈ enumerate inp) :
    s ≠ [] ∧ ∀ a ∈ s, ∀ b ∈ s, ReachIn inp.edges s a b := by
  rw [enumerate, List.mem_filter] at hs
  obtain ⟨-, hp⟩ := hs
  rw [Bool.and_eq_true, Bool.and_eq_true] at hp
  obtain ⟨⟨hne, hconn⟩, htol⟩ := hp
  refine ⟨?_, connectedB_sound hconn⟩
  intro hnil
  subst hnil
  exact absurd hne (by decide)

theorem enumerate_connected_witness :
    (["B", "C"] ∈ enumerate exampleInput) ∧
    (["B", "C"] ≠ [] ∧ ∀ a ∈ ["B", "C"], ∀ b ∈ ["B", "C"],
      ReachIn exampleInput.edges ["B", "C"] a b) :=
  ⟨by decide, enumerate_connected exampleInput ["B", "C"] (by decide)⟩

/-- C3: every combination the enumerator retains has an area sum within the
configured tolerance of the target. -/
theorem enumerate_within_tolerance (inp : EnumInput) (s : List String)
    (hs : s ∈ enumerate inp) :
    (areaSum inp.areas s - inp.target).natAbs ≤ inp.tolerance := by
  rw [enumerate, List.mem_filter] at hs
  obtain ⟨-, hp⟩ := hs
  rw [Bool.and_eq_true] at hp
  exact of_decide_eq_true hp.2

theorem enumerate_within_tolerance_witness :
    (["B", "C"] ∈ enumerate exampleInput) ∧
    (areaSum exampleInput.areas ["B", "C"] - exampleInput.target).natAbs
      ≤ exampleInput.tolerance :=
  ⟨by decide, enumerate_within_tolerance exampleInput ["B", "C"] (by decide)⟩

/-- C7: on the spec's example — path graph A-B-C-D, areas 10/20/15/5,
target 35, tolerance 0 — the enumerator returns exactly {B, C}. -/
theorem enumerate_example : enumerate exampleInput = [["B", "C"]] := by
  decide

/-- C6 (code bug): with the combinations file missing or malformed, `init`
propagates the JSON parse error instead of rendering an empty labelled
display — the rejection is unhandled and nothing is rendered; likewise for
the geometry file. -/
theorem init_missing_data_rejects :
    (∀ (featureNames : List String) (g : Int) (cs : List Combo),
      init FetchOutcome.ok FetchOutcome.missing featureNames g cs
        = Except.error "SyntaxError: unexpected token") ∧
    (∀ (featureNames : List String) (g : Int) (cs : List Combo),
      init FetchOutcome.ok FetchOutcome.malformed featureNames g cs
        = Except.error "SyntaxError: unexpected token") ∧
    (∀ (featureNames : List String) (g : Int) (cs : List Combo),
      init FetchOutcome.missing FetchOutcome.ok featureNames g cs
        = Except.error "SyntaxError: unexpected token") :=
  ⟨fun _ _ _ => rfl, fun _ _ _ => rfl, fun _ _ _ => rfl⟩

theorem init_missing_data_rejects_witness :
    init FetchOutcome.ok FetchOutcome.missing [] 0 []
      = Except.error "SyntaxError: unexpected token" :=
  init_missing_data_rejects.1 [] 0 []

theorem hover_preserves_selected_combo_styles_witness :
    handleStateHover [⟨["Iowa", "Ohio"], 261844⟩] (some 0)
        (fun _ => StyleName.defaultStyle) "Texas" "Ohio"
      = StyleName.defaultStyle ∧
    handleStateOut [⟨["Iowa", "Ohio"], 261844⟩] (some 0)
        (fun _ => StyleName.defaultStyle) "Texas" "Ohio"
      = StyleName.defaultStyle :=
  hover_preserves_selected_combo_styles
    [⟨["Iowa", "Ohio"], 261844⟩] 0 ⟨["Iowa", "Ohio"], 261844⟩
    (fun _ => StyleName.defaultStyle) "Texas" "Ohio" rfl (by decide)

end Greenland
